import Mathlib

/-!
# Zustorm form-state engine: a shallow embedding

This development embeds the core of the zustorm form-state library
(`src/utils.tsx`, authoritative variant, together with the `createComputer`
middleware of `src/computer.ts`) and proves properties of the embedded
definitions.

JavaScript runtime values are modelled by `JVal`.  Objects and arrays are
both represented by the `obj` constructor: an ordered association list of
string keys together with an `isArray` flag.  This matches the library's
use of lodash `setWith(state, path, value, Object)`, whose `Object`
customizer forces plain objects for every vivified intermediate container,
and JS arrays being objects whose element slots are the decimal index keys
(holes are simply absent keys).  Boxed primitives produced by `Object(x)`
on a primitive intermediate are modelled as fresh plain objects: the boxed
wrapper behaves as a container for every subsequent path operation.

Deep equality (`isEqual`) is structural equality of `JVal`.  All objects
built by the operations of this development keep a deterministic key
order, so structural equality coincides with lodash `isEqual` on them.
-/

namespace Zustorm

/-- A JavaScript runtime value. `obj isArray fields` covers both plain
objects (`isArray = false`) and arrays (`isArray = true`, element `i`
stored under the decimal key `toString i`). -/
inductive JVal where
  | undefined : JVal
  | jsNull : JVal
  | bool : Bool → JVal
  | num : Int → JVal
  | str : String → JVal
  | obj : Bool → List (String × JVal) → JVal
deriving Repr

mutual

/-- Structural equality of values (lodash `isEqual`; see module doc). -/
def JVal.beq : JVal → JVal → Bool
  | .undefined, .undefined => true
  | .jsNull, .jsNull => true
  | .bool x, .bool y => x == y
  | .num x, .num y => x == y
  | .str x, .str y => x == y
  | .obj x fs, .obj y gs => x == y && beqFields fs gs
  | _, _ => false

/-- Structural equality of field lists, pointwise and in order. -/
def beqFields : List (String × JVal) → List (String × JVal) → Bool
  | [], [] => true
  | (k, v) :: t, (k', v') :: t' => k == k' && JVal.beq v v' && beqFields t t'
  | _, _ => false

end

/-- A path, already split into segments (the library's `toPath` output). -/
abbrev JPath := List String

/-- First binding of a key in an association list (JS property lookup). -/
def lookupField : List (String × JVal) → String → Option JVal
  | [], _ => none
  | (k', v) :: rest, k => if k' = k then some v else lookupField rest k

/-- JS property assignment on an association list: an existing key is
updated in place (keeping its position), a new key is appended. -/
def setField : List (String × JVal) → String → JVal → List (String × JVal)
  | [], k, x => [(k, x)]
  | (k', v) :: rest, k, x =>
      if k' = k then (k', x) :: rest else (k', v) :: setField rest k x

/-- Is the value a container (`typeof v === 'object' && v !== null`)? -/
def JVal.isContainer : JVal → Bool
  | .obj _ _ => true
  | _ => false

/-- The `Array.isArray` test. -/
def JVal.arrFlag : JVal → Bool
  | .obj a _ => a
  | _ => false

/-- JS truthiness: `undefined`, `null`, `false`, `0` and `""` are falsy. -/
def falsy : JVal → Bool
  | .undefined => true
  | .jsNull => true
  | .bool b => !b
  | .num n => n == 0
  | .str s => s == ""
  | .obj _ _ => false

/-- JS truthiness, positively. -/
def truthy (v : JVal) : Bool := !falsy v

/-- Property read `v[k]`: `undefined` when the property is missing or the
receiver is not a container. -/
def getKey (v : JVal) (k : String) : JVal :=
  match v with
  | .obj _ fs => (lookupField fs k).getD .undefined
  | _ => .undefined

/-- Does the container own the property `k`? -/
def hasKey (v : JVal) (k : String) : Bool :=
  match v with
  | .obj _ fs => (lookupField fs k).isSome
  | _ => false

/-- lodash `get(v, p)`: walk the path, yielding `undefined` on any miss,
never throwing. -/
def getPath (v : JVal) : JPath → JVal
  | [] => v
  | k :: ks => getPath (getKey v k) ks

/-- Property write `v[k] = x`; a non-container receiver is left unchanged
(lodash `baseSet` refuses non-objects). -/
def setKey (v : JVal) (k : String) (x : JVal) : JVal :=
  match v with
  | .obj a fs => .obj a (setField fs k x)
  | _ => v

/-- lodash `setWith(v, p, x, Object)`: walk the path, forcing a fresh plain
object for every intermediate that is not already a container, and assign
`x` at the terminal segment.  An empty path leaves the value unchanged
(lodash `baseSet` with no segments), and a non-container root is returned
unchanged. -/
def setPath (v : JVal) (p : JPath) (x : JVal) : JVal :=
  match p, v with
  | [], _ => v
  | k :: ks, .obj a fs =>
      match ks with
      | [] => .obj a (setField fs k x)
      | _ :: _ =>
          let c := (lookupField fs k).getD .undefined
          let c' := if c.isContainer then c else .obj false []
          .obj a (setField fs k (setPath c' ks x))
  | _ :: _, _ => v

/-- Does the whole path exist in the tree (every segment an owned key)? -/
def hasPath (v : JVal) : JPath → Bool
  | [] => true
  | k :: ks => hasKey v k && hasPath (getKey v k) ks

/-- The index properties a string contributes under spread
(`{..."ab"} = {0: "a", 1: "b"}`). -/
def strIndexFields (s : String) : List (String × JVal) :=
  s.toList.enum.map (fun p => (toString p.1, JVal.str (String.mk [p.2])))

/-- The own enumerable properties a value contributes to a spread or to
`Object.assign`: the fields of a container, the index characters of a
string, nothing for the remaining primitives. -/
def spreadFields : JVal → List (String × JVal)
  | .obj _ fs => fs
  | .str s => strIndexFields s
  | _ => []

/-- Assign a list of bindings onto a base field list, left to right
(later bindings win, as in JS property assignment order). -/
def assignFields (base : List (String × JVal)) (l : List (String × JVal)) :
    List (String × JVal) :=
  l.foldl (fun acc kv => setField acc kv.1 kv.2) base

/-- The object-literal spread `{ ...a, ...b }`: always a fresh plain
object. -/
def jsSpread2 (a b : JVal) : JVal :=
  .obj false (assignFields (spreadFields a) (spreadFields b))

/-- The object-literal spread with one extra trailing property:
`{ ...a, k: x }`.  The property is written even when `x` is `undefined`. -/
def spreadWith (a : JVal) (k : String) (x : JVal) : JVal :=
  .obj false (setField (spreadFields a) k x)

/-- `Object.assign(target, source)`: mutates (here: rebuilds) the target,
keeping its identity and array flag; a non-container target is modelled as
unchanged. -/
def objAssign (target source : JVal) : JVal :=
  match target with
  | .obj a fs => .obj a (assignFields fs (spreadFields source))
  | _ => target

/-- lodash `isEqual`, as structural equality of the model (see the module
doc comment: key order is deterministic for every object this development
builds). -/
def isEqual (a b : JVal) : Bool := JVal.beq a b

/-- The own enumerable keys of a container (`Object.keys`). -/
def objKeys : JVal → List String
  | .obj _ fs => fs.map Prod.fst
  | _ => []

/-- `new Set([...Object.keys(a), ...Object.keys(b)])` in insertion order. -/
def unionKeys (a b : JVal) : List String :=
  (objKeys a ++ objKeys b).dedup

/-- `getWithOptionalPath(state, path)` of `utils.tsx`: an absent (falsy)
path means "the whole state", otherwise a lodash `get`. -/
def getWithOptionalPath (state : JVal) (path : JPath) : JVal :=
  if path.isEmpty then state else getPath state path

/-- `setWithOptionalPath(state, path, value)` of `utils.tsx`: an absent
path merges `value` into the state with `Object.assign`, otherwise
`setWith(state, path, value, Object)`. -/
def setWithOptionalPath (state : JVal) (path : JPath) (value : JVal) : JVal :=
  if path.isEmpty then objAssign state value else setPath state path value

/-- `mergePaths(...paths)` of `utils.tsx`, on already-split segment lists:
empty fragments are skipped, the rest are concatenated in order. -/
def mergePaths (paths : List JPath) : JPath :=
  paths.foldl (fun acc p => acc ++ p) []

/-- Every value's size is positive (auxiliary fact for termination). -/
theorem one_le_sizeOf_fields (fs : List (String × JVal)) : 1 ≤ sizeOf fs := by
  cases fs <;> simp_arith

/-- A property read strictly shrinks a container (termination measure for
the recursive diff). -/
theorem sizeOf_getKey_lt (a : Bool) (fs : List (String × JVal)) (k : String) :
    sizeOf (getKey (JVal.obj a fs) k) < sizeOf (JVal.obj a fs) := by
  have hfs : ∀ (l : List (String × JVal)) (v : JVal),
      lookupField l k = some v → sizeOf v < sizeOf l := by
    intro l
    induction l with
    | nil => intro v h; simp [lookupField] at h
    | cons hd tl ih =>
        intro v h
        obtain ⟨k', w⟩ := hd
        by_cases hk : k' = k
        · simp [lookupField, hk] at h
          subst h
          simp_arith
        · simp [lookupField, hk] at h
          have := ih v h
          simp_arith
          omega
  simp only [getKey]
  cases h : lookupField fs k with
  | none =>
      have := one_le_sizeOf_fields fs
      simp_arith
  | some v =>
      have := hfs fs v h
      simp_arith
      omega

/-- `findChangedPaths(oldObj, newObj, currentPath)` of `utils.tsx`: the
recursive diff returning the deepest differing paths.  Paths are kept as
segment lists (the source accumulates the dot-joined string). -/
def findChangedPaths (oldObj newObj : JVal) (currentPath : JPath) :
    List JPath :=
  if isEqual oldObj newObj then []
  else if h : oldObj.isContainer = false ∨ newObj.isContainer = false ∨
      oldObj.arrFlag ≠ newObj.arrFlag then
    if currentPath.isEmpty then [] else [currentPath]
  else
    ((unionKeys oldObj newObj).map (fun key =>
        let oldValue := getKey oldObj key
        let newValue := getKey newObj key
        if isEqual oldValue newValue then []
        else findChangedPaths oldValue newValue (currentPath ++ [key]))).flatten
termination_by sizeOf oldObj + sizeOf newObj
decreasing_by
  push_neg at h
  obtain ⟨h1, h2, _⟩ := h
  rcases oldObj with _ | _ | _ | _ | _ | ⟨a, fs⟩ <;>
    simp [JVal.isContainer] at h1
  rcases newObj with _ | _ | _ | _ | _ | ⟨b, gs⟩ <;>
    simp [JVal.isContainer] at h2
  have ho := sizeOf_getKey_lt a fs key
  have hn := sizeOf_getKey_lt b gs key
  omega

/-- `markPathWithProperty(target, path, property)` of `utils.tsx`: marks
the path and every ancestor prefix with `property: true` via
`setWith(..., Object)`.  A falsy target is left alone (the source returns
early), and so is a non-container target (lodash `set` refuses it). -/
def markPathWithProperty (target : JVal) (path : JPath) (property : String) :
    JVal :=
  if falsy target || path.isEmpty then target
  else
    (List.range path.length).foldl
      (fun t i => setPath t (path.take (i + 1) ++ [property]) (.bool true))
      target

/-- `markPathAsTouched` of `utils.tsx`. -/
def markPathAsTouched (target : JVal) (path : JPath) : JVal :=
  markPathWithProperty target path "_touched"

/-- `markPathAsDirty` of `utils.tsx`. -/
def markPathAsDirty (target : JVal) (path : JPath) : JVal :=
  markPathWithProperty target path "_dirty"

/-- In-place mutation of the property `k` of a draft node: the source
mutates `form.touched` / `form.dirty` through lodash `setWith`, which only
acts when that property currently holds a container; otherwise the draft
is untouched and the property is not created. -/
def mutateKey (v : JVal) (k : String) (g : JVal → JVal) : JVal :=
  if (getKey v k).isContainer then setKey v k (g (getKey v k)) else v

/-- One iteration of the marking loop of `createFormComputer`:
`markPathAsTouched(form.touched, path); markPathAsDirty(form.dirty, path)`
as the in-draft mutation of the form node. -/
def markFormPath (f : JVal) (path : JPath) : JVal :=
  let f1 := mutateKey f "touched" (fun t => markPathAsTouched t path)
  mutateKey f1 "dirty" (fun t => markPathAsDirty t path)

/-- The compute function built by `createFormComputer` of `utils.tsx`, as
declared there with two parameters `(state, prevState)`.

`validate` abstracts `(schema ?? object({})).safeParse(values).error?.format()`:
`none` models a successful parse (no error tree), `some e` the formatted
error tree `e`.

The body: resolve the form node (whole state when `formPath` is absent);
bail out when falsy; when the previous values are truthy and differ from
the current ones, mark every changed path as touched and dirty in the
draft's form node; finally write `{...form, errors: errorsFormatted}` back
at the form path (the `errors` property is written even when `undefined`). -/
def formCompute (validate : JVal → Option JVal) (formPath : JPath)
    (state prevState : JVal) : JVal :=
  let form0 := getWithOptionalPath state formPath
  if falsy form0 then state
  else
    let prevForm := getWithOptionalPath prevState formPath
    let currentValues := getKey form0 "values"
    let previousValues := getKey prevForm "values"
    let form1 :=
      if truthy previousValues && !isEqual previousValues currentValues then
        (findChangedPaths previousValues currentValues []).foldl
          markFormPath form0
      else form0
    let draft := setWithOptionalPath state formPath form1
    let errorsFormatted := (validate currentValues).getD .undefined
    setWithOptionalPath draft formPath (spreadWith form1 "errors" errorsFormatted)

/-- The compute function as the `createComputer` middleware of
`computer.ts` actually invokes it: `compute(proxy)` passes a single
argument, so the declared `prevState` parameter is `undefined`. -/
def formComputeInvoked (validate : JVal → Option JVal) (formPath : JPath)
    (state : JVal) : JVal :=
  formCompute validate formPath state .undefined

/-- `setWithComputed` of `computer.ts` (state transition only):
`merged = {...get(), ...nextPart}`; when the dependency check fires
(`triggered` abstracts proxy-compare's `isChanged` over the tracked
`affected` set), the computed state is derived from `merged` and the store
applies `{...nextPart, ...computed}` on top of the old state (zustand's
non-replacing `set`); otherwise only `nextPart` is applied. -/
def setWithComputed (compute : JVal → JVal) (state nextPart : JVal)
    (triggered : Bool) : JVal :=
  let merged := jsSpread2 state nextPart
  if triggered then
    let computed := compute merged
    jsSpread2 state (jsSpread2 nextPart computed)
  else
    jsSpread2 state nextPart

/-- A `setState` on a store enhanced by `withForm`: the computed
middleware with `createFormComputer`'s compute, invoked single-argument. -/
def withFormSetState (validate : JVal → Option JVal) (formPath : JPath)
    (state upd : JVal) (triggered : Bool) : JVal :=
  setWithComputed (formComputeInvoked validate formPath) state upd triggered

/-- The initial state of a store enhanced by `withForm`:
`{...initialState, ...runCompute(initialState)}` of `computer.ts` (the
store is empty before creation, so `merged` is the creator's result). -/
def withFormInitial (validate : JVal → Option JVal) (formPath : JPath)
    (initialState : JVal) : JVal :=
  jsSpread2 initialState (formComputeInvoked validate formPath initialState)

/-- `getDefaultForm(values)` of `utils.tsx`. -/
def getDefaultForm (values : JVal) : JVal :=
  .obj false [("values", values)]

/-- The exception-aware derivation: `getSchema?.(state)` is user code and
may throw (`Except.error`), in which case nothing downstream runs — there
is no try/catch anywhere in `createFormComputer` or `createComputer`. -/
def formComputeE (getSchemaE : JVal → Except String (JVal → Option JVal))
    (formPath : JPath) (state prevState : JVal) : Except String JVal :=
  match getSchemaE state with
  | .error e => .error e
  | .ok validate => .ok (formCompute validate formPath state prevState)

/-- `setWithComputed` when the compute step may throw: the exception
propagates out of `setState` (no catch in `computer.ts`), and no state
update is applied. -/
def setWithComputedE (computeE : JVal → Except String JVal)
    (state nextPart : JVal) (triggered : Bool) : Except String JVal :=
  let merged := jsSpread2 state nextPart
  if triggered then
    match computeE merged with
    | .error e => .error e
    | .ok computed => .ok (jsSpread2 state (jsSpread2 nextPart computed))
  else
    .ok (jsSpread2 state nextPart)

/-- A `setState` through `withForm` when `getSchema` may throw. -/
def withFormSetStateE (getSchemaE : JVal → Except String (JVal → Option JVal))
    (formPath : JPath) (state upd : JVal) (triggered : Bool) :
    Except String JVal :=
  setWithComputedE (fun s => formComputeE getSchemaE formPath s .undefined)
    state upd triggered

/-- `getScopedFormState(state, path)` of `utils.tsx`: resolve the path
independently in each of the four parallel trees (field order as in the
source's object literal). -/
def getScopedFormState (state : JVal) (path : JPath) : JVal :=
  .obj false
    [("values", getPath (getKey state "values") path),
     ("errors", getPath (getKey state "errors") path),
     ("dirty", getPath (getKey state "dirty") path),
     ("touched", getPath (getKey state "touched") path)]

/-- The argument of a store's `setState`: a partial state object or an
updater function of the current (scoped) state. -/
inductive SetStateArg where
  | val : JVal → SetStateArg
  | fn : (JVal → JVal) → SetStateArg

/-- The root-state transition performed by `getScopedFormApi(...).setState`
of `utils.tsx`: resolve the current scoped state, apply the partial or
updater, spread it onto the scoped state, then assign all four scoped
sub-values back into the root's four trees inside one `produce` — a single
root `setState`. -/
def applyScopedSet (state : JVal) (path : JPath) (upd : SetStateArg) :
    JVal :=
  let scopedSt := getScopedFormState state path
  let partState :=
    match upd with
    | .fn f => f scopedSt
    | .val v => v
  let newState := jsSpread2 scopedSt partState
  let s1 := setWithOptionalPath state (mergePaths [["values"], path])
    (getKey newState "values")
  let s2 := setWithOptionalPath s1 (mergePaths [["errors"], path])
    (getKey newState "errors")
  let s3 := setWithOptionalPath s2 (mergePaths [["dirty"], path])
    (getKey newState "dirty")
  setWithOptionalPath s3 (mergePaths [["touched"], path])
    (getKey newState "touched")

/-- The notification condition of `getScopedFormApi(...).subscribe` of
`utils.tsx`: the listener runs iff the scoped `FormState` (all four
projections) changed by deep equality. -/
def scopedShouldNotify (state prevState : JVal) (path : JPath) : Bool :=
  !isEqual (getScopedFormState state path) (getScopedFormState prevState path)

/-- The notification condition of the generic `getScopedApi(...).subscribe`
of `utils.tsx`: the listener runs iff the slice at the path changed by
deep equality. -/
def scopedApiShouldNotify (state prevState : JVal) (path : JPath) : Bool :=
  !isEqual (getPath state path) (getPath prevState path)

/-- A scoped `setState` on a store enhanced with `withForm` (form at the
root): the scoped updater produces the four-tree write, which the enhanced
store's `setState` (`setWithComputed`) then takes through recomputation. -/
def scopedSetThroughForm (validate : JVal → Option JVal) (state : JVal)
    (path : JPath) (upd : SetStateArg) (triggered : Bool) : JVal :=
  setWithComputed (formComputeInvoked validate []) state
    (applyScopedSet state path upd) triggered

/-- The validator of test Scenario A: zod
`object({name: string().min(1, 'Name is required')})` composed with
`.safeParse(·).error?.format()` — an error tree exactly when `name` is
empty. -/
def requiredNameValidator (v : JVal) : Option JVal :=
  if falsy (getKey v "name") then
    some (.obj false
      [("_errors", .obj true []),
       ("name", .obj false
         [("_errors", .obj true [("0", .str "Name is required")])])])
  else none

/-- Scenario A: the store creator's result `getDefaultForm({name: ""})`. -/
def scenarioCreatorState : JVal :=
  getDefaultForm (.obj false [("name", .str "")])

/-- Scenario A: the state of the enhanced store right after creation. -/
def scenarioInitialState : JVal :=
  withFormInitial requiredNameValidator [] scenarioCreatorState

/-- The root `setState` partial writing `values.name = "Al"`. -/
def scenarioChangePartial : JVal :=
  .obj false [("values", .obj false [("name", .str "Al")])]

/-- The state after the `values`-changing transition through `withForm`. -/
def scenarioNextState : JVal :=
  withFormSetState requiredNameValidator [] scenarioInitialState
    scenarioChangePartial true

/-- A root form state whose `user` slice has values but no error tree. -/
def subPrevState : JVal :=
  .obj false [("values", .obj false [("user", .obj false [("name", .str "A")])])]

/-- The same root after recomputation attached an error tree under `user`,
with the values unchanged. -/
def subNextState : JVal :=
  .obj false
    [("values", .obj false [("user", .obj false [("name", .str "A")])]),
     ("errors", .obj false
       [("user", .obj false [("_errors", .obj true [("0", .str "bad")])])])]

/-- Scenario C root `{user: {name: "A"}, other: 1}`. -/
def rootUserA : JVal :=
  .obj false [("user", .obj false [("name", .str "A")]), ("other", .num 1)]

/-- Scenario C root after `setState({other: 2})`. -/
def rootOther2 : JVal :=
  .obj false [("user", .obj false [("name", .str "A")]), ("other", .num 2)]

/-- Scenario C root after `setState({user: {name: "B"}})`. -/
def rootUserB : JVal :=
  .obj false [("user", .obj false [("name", .str "B")]), ("other", .num 1)]

/-- A store state hosting a form under the `form` key (a `formPath` use). -/
def nestedFormState : JVal :=
  .obj false [("form", .obj false [("values", .obj false [("name", .str "x")])])]

/-- A root form state whose `name` field already carries touched and dirty
marks. -/
def markedFormState : JVal :=
  .obj false
    [("values", .obj false [("name", .str "A")]),
     ("touched", .obj false
       [("name", .obj false [("_touched", .bool true)])]),
     ("dirty", .obj false
       [("name", .obj false [("_dirty", .bool true)])])]

/-! ## Basic lemmas about the value model -/

mutual

theorem beq_refl : ∀ (a : JVal), JVal.beq a a = true
  | .undefined => rfl
  | .jsNull => rfl
  | .bool _ => by simp [JVal.beq]
  | .num _ => by simp [JVal.beq]
  | .str _ => by simp [JVal.beq]
  | .obj _ fs => by simp [JVal.beq, beqFields_refl fs]

theorem beqFields_refl : ∀ (fs : List (String × JVal)), beqFields fs fs = true
  | [] => rfl
  | (_, v) :: t => by simp [beqFields, beq_refl v, beqFields_refl t]

end

theorem isEqual_refl (a : JVal) : isEqual a a = true := beq_refl a

theorem lookupField_setField_self (fs : List (String × JVal)) (k : String)
    (x : JVal) : lookupField (setField fs k x) k = some x := by
  induction fs with
  | nil => simp [setField, lookupField]
  | cons hd tl ih =>
      obtain ⟨k', v⟩ := hd
      by_cases h : k' = k <;> simp [setField, lookupField, h, ih]

theorem lookupField_setField_ne (fs : List (String × JVal)) (k j : String)
    (x : JVal) (h : j ≠ k) :
    lookupField (setField fs k x) j = lookupField fs j := by
  induction fs with
  | nil => simp [setField, lookupField, Ne.symm h]
  | cons hd tl ih =>
      obtain ⟨k', v⟩ := hd
      by_cases hk : k' = k
      · subst hk
        simp [setField, lookupField, Ne.symm h]
      · by_cases hj : k' = j <;> simp [setField, lookupField, hk, hj, h, ih]

theorem getKey_setKey_self (v : JVal) (k : String) (x : JVal)
    (h : v.isContainer = true) : getKey (setKey v k x) k = x := by
  cases v <;> simp_all [JVal.isContainer, getKey, setKey,
    lookupField_setField_self]

theorem getKey_setKey_ne (v : JVal) (k j : String) (x : JVal) (h : j ≠ k) :
    getKey (setKey v k x) j = getKey v j := by
  cases v <;> simp [getKey, setKey, lookupField_setField_ne _ _ _ _ h]

theorem getKey_of_not_container (v : JVal) (k : String)
    (h : v.isContainer = false) : getKey v k = .undefined := by
  cases v <;> simp_all [JVal.isContainer, getKey]

theorem getPath_undefined (p : JPath) : getPath .undefined p = .undefined := by
  induction p with
  | nil => rfl
  | cons k ks ih => simpa [getPath, getKey] using ih

theorem getPath_of_not_container (v : JVal) (p : JPath)
    (h : v.isContainer = false) (hp : p ≠ []) : getPath v p = .undefined := by
  cases p with
  | nil => exact absurd rfl hp
  | cons k ks => simp [getPath, getKey_of_not_container v k h, getPath_undefined]

theorem getPath_append (v : JVal) (p q : JPath) :
    getPath v (p ++ q) = getPath (getPath v p) q := by
  induction p generalizing v with
  | nil => rfl
  | cons k ks ih => simp [getPath, ih]

theorem setPath_nil (v x : JVal) : setPath v [] x = v := by
  cases v <;> rfl

theorem setPath_single (a : Bool) (fs : List (String × JVal)) (k : String)
    (x : JVal) : setPath (.obj a fs) [k] x = .obj a (setField fs k x) := rfl

theorem setPath_cons (a : Bool) (fs : List (String × JVal)) (k k2 : String)
    (ks : JPath) (x : JVal) :
    setPath (.obj a fs) (k :: k2 :: ks) x =
      .obj a (setField fs k
        (setPath (if ((lookupField fs k).getD .undefined).isContainer
            then (lookupField fs k).getD .undefined else .obj false [])
          (k2 :: ks) x)) := rfl

theorem setPath_not_container (v : JVal) (p : JPath) (x : JVal)
    (h : v.isContainer = false) (hp : p ≠ []) : setPath v p x = v := by
  cases p with
  | nil => exact absurd rfl hp
  | cons k ks => cases v <;> first | rfl | simp [JVal.isContainer] at h

theorem isContainer_setPath (v : JVal) (p : JPath) (x : JVal) :
    (setPath v p x).isContainer = v.isContainer := by
  cases p with
  | nil => rw [setPath_nil]
  | cons k ks =>
      cases v <;> cases ks <;>
        simp [setPath_single, setPath_cons, JVal.isContainer] <;> rfl

theorem getKey_setPath_top_ne (v : JVal) (k : String) (ks : JPath) (x : JVal)
    (j : String) (h : j ≠ k) :
    getKey (setPath v (k :: ks) x) j = getKey v j := by
  cases v with
  | obj a fs =>
      cases ks with
      | nil => simp [setPath_single, getKey, lookupField_setField_ne _ _ _ _ h]
      | cons k2 kt =>
          simp [setPath_cons, getKey, lookupField_setField_ne _ _ _ _ h]
  | undefined => rfl
  | jsNull => rfl
  | bool b => rfl
  | num n => rfl
  | str s => rfl

theorem hasKey_setPath_top_self (a : Bool) (fs : List (String × JVal))
    (k : String) (ks : JPath) (x : JVal) :
    hasKey (setPath (.obj a fs) (k :: ks) x) k = true := by
  cases ks with
  | nil => simp [setPath_single, hasKey, lookupField_setField_self]
  | cons k2 kt => simp [setPath_cons, hasKey, lookupField_setField_self]

theorem hasKey_setPath_top_ne (v : JVal) (k : String) (ks : JPath) (x : JVal)
    (j : String) (h : j ≠ k) :
    hasKey (setPath v (k :: ks) x) j = hasKey v j := by
  cases v with
  | obj a fs =>
      cases ks with
      | nil => simp [setPath_single, hasKey, lookupField_setField_ne _ _ _ _ h]
      | cons k2 kt =>
          simp [setPath_cons, hasKey, lookupField_setField_ne _ _ _ _ h]
  | undefined => rfl
  | jsNull => rfl
  | bool b => rfl
  | num n => rfl
  | str s => rfl

theorem getPath_setPath_extend (p : JPath) (v x : JVal) (q : JPath)
    (hv : v.isContainer = true) (hp : p ≠ []) :
    getPath (setPath v p x) (p ++ q) = getPath x q := by
  induction p generalizing v with
  | nil => exact absurd rfl hp
  | cons k ks ih =>
      rcases v with _ | _ | _ | _ | _ | ⟨a, fs⟩ <;>
        simp [JVal.isContainer] at hv
      cases ks with
      | nil =>
          simp [setPath_single, getPath, getKey, lookupField_setField_self]
      | cons k2 kt =>
          have hc : (if ((lookupField fs k).getD .undefined).isContainer
              then (lookupField fs k).getD .undefined
              else JVal.obj false []).isContainer = true := by
            split <;> simp_all [JVal.isContainer]
          simp only [setPath_cons, List.cons_append, getPath, getKey,
            lookupField_setField_self, Option.getD_some]
          exact ih _ hc (by simp)

theorem getPath_setPath_self (p : JPath) (v x : JVal)
    (hv : v.isContainer = true) (hp : p ≠ []) :
    getPath (setPath v p x) p = x := by
  have h := getPath_setPath_extend p v x [] hv hp
  simpa using h

theorem hasPath_setPath_self (p : JPath) (v x : JVal)
    (hv : v.isContainer = true) (hp : p ≠ []) :
    hasPath (setPath v p x) p = true := by
  induction p generalizing v with
  | nil => exact absurd rfl hp
  | cons k ks ih =>
      rcases v with _ | _ | _ | _ | _ | ⟨a, fs⟩ <;>
        simp [JVal.isContainer] at hv
      cases ks with
      | nil =>
          simp [setPath_single, hasPath, hasKey, getKey,
            lookupField_setField_self]
      | cons k2 kt =>
          have hc : (if ((lookupField fs k).getD .undefined).isContainer
              then (lookupField fs k).getD .undefined
              else JVal.obj false []).isContainer = true := by
            split <;> simp_all [JVal.isContainer]
          simp only [setPath_cons, hasPath, hasKey, getKey,
            lookupField_setField_self, Option.isSome_some, Option.getD_some,
            Bool.true_and]
          exact ih _ hc (by simp)

theorem getPath_setPath_frame (p q : JPath) (v x : JVal)
    (hpq : p.isPrefixOf q = false) (hqp : q.isPrefixOf p = false) :
    getPath (setPath v p x) q = getPath v q := by
  induction p generalizing q v with
  | nil => simp [List.isPrefixOf] at hpq
  | cons k ks ih =>
      cases q with
      | nil => simp [List.isPrefixOf] at hqp
      | cons j qs =>
          rcases v with _ | _ | _ | _ | _ | ⟨a, fs⟩
          case undefined => rfl
          case jsNull => rfl
          case bool => rfl
          case num => rfl
          case str => rfl
          case obj =>
            by_cases hkj : k = j
            · subst hkj
              simp only [List.isPrefixOf, beq_self_eq_true, Bool.true_and]
                at hpq hqp
              have hks : ks ≠ [] := by
                intro h; subst h; simp [List.isPrefixOf] at hpq
              have hqs : qs ≠ [] := by
                intro h; subst h; simp [List.isPrefixOf] at hqp
              cases ks with
              | nil => exact absurd rfl hks
              | cons k2 kt =>
                  simp only [setPath_cons, getPath, getKey,
                    lookupField_setField_self, Option.getD_some]
                  by_cases hcc : ((lookupField fs k).getD .undefined).isContainer = true
                  · rw [if_pos hcc]
                    exact ih qs _ hpq hqp
                  · rw [if_neg (by simp [hcc])]
                    rw [ih qs _ hpq hqp]
                    cases qs with
                    | nil => exact absurd rfl hqs
                    | cons j2 qt =>
                        have h1 : getPath (JVal.obj false []) (j2 :: qt) =
                            .undefined := by
                          simp [getPath, getKey, lookupField, getPath_undefined]
                        have h2 : getPath ((lookupField fs k).getD .undefined)
                            (j2 :: qt) = .undefined :=
                          getPath_of_not_container _ _ (by simpa using hcc)
                            (by simp)
                        rw [h1, h2]
            · have hjk : j ≠ k := fun hh => hkj hh.symm
              simp [getPath,
                getKey_setPath_top_ne (JVal.obj a fs) k ks x j hjk]

/-! ## Lemmas about field assignment and spreads -/

theorem lookupField_eq_none (l : List (String × JVal)) (k : String)
    (h : k ∉ l.map Prod.fst) : lookupField l k = none := by
  induction l with
  | nil => rfl
  | cons hd tl ih =>
      obtain ⟨k', v⟩ := hd
      rw [List.map_cons, List.mem_cons, not_or] at h
      have h1 : ¬ k' = k := fun hh => h.1 hh.symm
      simp [lookupField, h1, ih h.2]

theorem mem_of_lookupField (l : List (String × JVal)) (k : String) (v : JVal)
    (h : lookupField l k = some v) : k ∈ l.map Prod.fst := by
  induction l with
  | nil => simp [lookupField] at h
  | cons hd tl ih =>
      obtain ⟨k', w⟩ := hd
      by_cases hk : k' = k
      · subst hk; simp
      · simp [lookupField, hk] at h
        simp [ih h]

theorem keys_setField (fs : List (String × JVal)) (k : String) (x : JVal) :
    (setField fs k x).map Prod.fst =
      if k ∈ fs.map Prod.fst then fs.map Prod.fst
      else fs.map Prod.fst ++ [k] := by
  induction fs with
  | nil => simp [setField]
  | cons hd tl ih =>
      obtain ⟨k', v⟩ := hd
      by_cases h : k' = k
      · subst h; simp [setField]
      · have h1 : ¬ k = k' := fun hh => h hh.symm
        by_cases h2 : k ∈ tl.map Prod.fst <;>
          simp [setField, h, ih, h1, h2]

theorem nodup_setField (fs : List (String × JVal)) (k : String) (x : JVal)
    (h : (fs.map Prod.fst).Nodup) :
    ((setField fs k x).map Prod.fst).Nodup := by
  rw [keys_setField]
  by_cases h2 : k ∈ fs.map Prod.fst
  · simp [h2, h]
  · simp [h2, List.nodup_append, h]

theorem setField_of_lookup (fs : List (String × JVal)) (k : String) (x : JVal)
    (h : lookupField fs k = some x) : setField fs k x = fs := by
  induction fs with
  | nil => simp [lookupField] at h
  | cons hd tl ih =>
      obtain ⟨k', v⟩ := hd
      by_cases hk : k' = k
      · subst hk
        simp [lookupField] at h
        simp [setField, h]
      · simp [lookupField, hk] at h
        simp [setField, hk, ih h]

theorem lookup_of_mem_nodup (fs : List (String × JVal)) (k : String) (v : JVal)
    (hnd : (fs.map Prod.fst).Nodup) (hm : (k, v) ∈ fs) :
    lookupField fs k = some v := by
  induction fs with
  | nil => simp at hm
  | cons hd tl ih =>
      obtain ⟨k', w⟩ := hd
      rw [List.map_cons, List.nodup_cons] at hnd
      rcases List.mem_cons.mp hm with h | h
      · cases h
        simp [lookupField]
      · have hk : ¬ k' = k := by
          intro hh
          apply hnd.1
          rw [hh]
          simpa using List.mem_map_of_mem Prod.fst h
        simp [lookupField, hk, ih hnd.2 h]

theorem assignFields_nil (base : List (String × JVal)) :
    assignFields base [] = base := rfl

theorem assignFields_cons (base : List (String × JVal)) (k : String) (x : JVal)
    (l : List (String × JVal)) :
    assignFields base ((k, x) :: l) = assignFields (setField base k x) l := rfl

theorem lookup_assignFields (l base : List (String × JVal)) (k : String)
    (hnd : (l.map Prod.fst).Nodup) :
    lookupField (assignFields base l) k =
      match lookupField l k with
      | some v => some v
      | none => lookupField base k := by
  induction l generalizing base with
  | nil => simp [assignFields_nil, lookupField]
  | cons hd t ih =>
      obtain ⟨k0, x0⟩ := hd
      rw [List.map_cons, List.nodup_cons] at hnd
      rw [assignFields_cons, ih _ hnd.2]
      by_cases hk : k0 = k
      · subst hk
        have ht : lookupField t k0 = none := lookupField_eq_none _ _ hnd.1
        simp [lookupField, ht, lookupField_setField_self]
      · have hne : k ≠ k0 := fun hh => hk hh.symm
        cases hlt : lookupField t k <;>
          simp [lookupField, hk, hlt, lookupField_setField_ne _ _ _ _ hne]

theorem lookup_assignFields_none (l base : List (String × JVal)) (k : String) :
    lookupField (assignFields base l) k = none ↔
      lookupField base k = none ∧ lookupField l k = none := by
  induction l generalizing base with
  | nil => simp [assignFields_nil, lookupField]
  | cons hd t ih =>
      obtain ⟨k0, x0⟩ := hd
      rw [assignFields_cons, ih]
      by_cases hk : k0 = k
      · subst hk
        simp [lookupField, lookupField_setField_self]
      · have hne : k ≠ k0 := fun hh => hk hh.symm
        simp [lookupField, hk, lookupField_setField_ne _ _ _ _ hne]

theorem nodup_assignFields (l base : List (String × JVal))
    (h : (base.map Prod.fst).Nodup) :
    ((assignFields base l).map Prod.fst).Nodup := by
  induction l generalizing base with
  | nil => exact h
  | cons hd t ih =>
      obtain ⟨k0, x0⟩ := hd
      rw [assignFields_cons]
      exact ih _ (nodup_setField _ _ _ h)

theorem assignFields_of_lookup (l base : List (String × JVal))
    (h : ∀ kv ∈ l, lookupField base kv.1 = some kv.2) :
    assignFields base l = base := by
  induction l with
  | nil => rfl
  | cons hd t ih =>
      obtain ⟨k0, x0⟩ := hd
      rw [assignFields_cons,
        setField_of_lookup base k0 x0 (h (k0, x0) (by simp))]
      exact ih (fun kv hkv => h kv (by simp [hkv]))

theorem objAssign_self (a : Bool) (fs : List (String × JVal))
    (h : (fs.map Prod.fst).Nodup) :
    objAssign (.obj a fs) (.obj a fs) = .obj a fs := by
  simp only [objAssign, spreadFields]
  rw [assignFields_of_lookup]
  intro kv hkv
  exact lookup_of_mem_nodup _ _ _ h hkv

theorem getKey_objAssign_spreadWith (a : Bool) (fs : List (String × JVal))
    (hnd : (fs.map Prod.fst).Nodup) (kk : String) (e : JVal) (k : String) :
    getKey (objAssign (.obj a fs) (spreadWith (.obj a fs) kk e)) k =
      if k = kk then e else getKey (.obj a fs) k := by
  simp only [objAssign, spreadWith, spreadFields, getKey]
  rw [lookup_assignFields _ _ _ (nodup_setField _ _ _ hnd)]
  by_cases hk : k = kk
  · subst hk
    simp [lookupField_setField_self]
  · rw [lookupField_setField_ne _ _ _ _ hk]
    cases hl : lookupField fs k <;> simp [hk, hl]

theorem hasKey_objAssign_spreadWith (a : Bool) (fs : List (String × JVal))
    (hnd : (fs.map Prod.fst).Nodup) (kk : String) (e : JVal) (k : String) :
    hasKey (objAssign (.obj a fs) (spreadWith (.obj a fs) kk e)) k =
      (hasKey (.obj a fs) k || decide (k = kk)) := by
  simp only [objAssign, spreadWith, spreadFields, hasKey]
  rw [lookup_assignFields _ _ _ (nodup_setField _ _ _ hnd)]
  by_cases hk : k = kk
  · subst hk
    simp [lookupField_setField_self]
  · rw [lookupField_setField_ne _ _ _ _ hk]
    cases hl : lookupField fs k <;> simp [hk, hl]

/-! ## The middleware's compute step, as invoked -/

theorem formComputeInvoked_root (validate : JVal → Option JVal) (a : Bool)
    (fs : List (String × JVal)) (hnd : (fs.map Prod.fst).Nodup) :
    formComputeInvoked validate [] (.obj a fs) =
      objAssign (.obj a fs)
        (spreadWith (.obj a fs) "errors"
          ((validate (getKey (.obj a fs) "values")).getD .undefined)) := by
  simp only [formComputeInvoked, formCompute, getWithOptionalPath,
    setWithOptionalPath, List.isEmpty_nil, if_true, falsy, truthy, getKey,
    Bool.not_true, Bool.false_and, Bool.false_eq_true, if_false,
    Bool.true_eq_false]
  rw [objAssign_self a fs hnd]

theorem getKey_formComputeInvoked_root (validate : JVal → Option JVal)
    (a : Bool) (fs : List (String × JVal)) (hnd : (fs.map Prod.fst).Nodup)
    (k : String) :
    getKey (formComputeInvoked validate [] (.obj a fs)) k =
      if k = "errors" then (validate (getKey (.obj a fs) "values")).getD .undefined
      else getKey (.obj a fs) k := by
  rw [formComputeInvoked_root validate a fs hnd]
  exact getKey_objAssign_spreadWith a fs hnd "errors" _ k

theorem hasKey_formComputeInvoked_root (validate : JVal → Option JVal)
    (a : Bool) (fs : List (String × JVal)) (hnd : (fs.map Prod.fst).Nodup)
    (k : String) :
    hasKey (formComputeInvoked validate [] (.obj a fs)) k =
      (hasKey (.obj a fs) k || decide (k = "errors")) := by
  rw [formComputeInvoked_root validate a fs hnd]
  exact hasKey_objAssign_spreadWith a fs hnd "errors" _ k

theorem getKey_jsSpread2_eq (a b : JVal) (k : String)
    (hb : ((spreadFields b).map Prod.fst).Nodup) :
    getKey (jsSpread2 a b) k =
      match lookupField (spreadFields b) k with
      | some v => v
      | none => (lookupField (spreadFields a) k).getD .undefined := by
  simp only [jsSpread2, getKey]
  rw [lookup_assignFields _ _ _ hb]
  cases lookupField (spreadFields b) k <;> simp

theorem withFormSetState_root_eq (validate : JVal → Option JVal)
    (s nextPart : JVal)
    (hs : ((spreadFields s).map Prod.fst).Nodup) :
    withFormSetState validate [] s nextPart true =
      .obj false (assignFields (spreadFields s)
        (assignFields (spreadFields nextPart)
          (assignFields
            (assignFields (spreadFields s) (spreadFields nextPart))
            (setField (assignFields (spreadFields s) (spreadFields nextPart))
              "errors"
              ((validate (getKey (jsSpread2 s nextPart) "values")).getD
                .undefined))))) := by
  have hmf : ((assignFields (spreadFields s)
      (spreadFields nextPart)).map Prod.fst).Nodup :=
    nodup_assignFields _ _ hs
  have h1 : jsSpread2 s nextPart =
      .obj false (assignFields (spreadFields s) (spreadFields nextPart)) := rfl
  simp only [withFormSetState, setWithComputed, if_true]
  rw [h1, formComputeInvoked_root validate false _ hmf]
  rfl

theorem getKey_withFormSetState_root (validate : JVal → Option JVal)
    (s nextPart : JVal) (k : String)
    (hs : ((spreadFields s).map Prod.fst).Nodup)
    (hn : ((spreadFields nextPart).map Prod.fst).Nodup) :
    getKey (withFormSetState validate [] s nextPart true) k =
      if k = "errors" then
        (validate (getKey (jsSpread2 s nextPart) "values")).getD .undefined
      else getKey (jsSpread2 s nextPart) k := by
  have hmf : ((assignFields (spreadFields s)
      (spreadFields nextPart)).map Prod.fst).Nodup :=
    nodup_assignFields _ _ hs
  rw [withFormSetState_root_eq validate s nextPart hs]
  simp only [getKey]
  rw [lookup_assignFields _ _ _ (nodup_assignFields _ _ hn),
    lookup_assignFields _ _ _ (nodup_assignFields _ _ hmf),
    lookup_assignFields _ _ _ (nodup_setField _ _ _ hmf)]
  by_cases hk : k = "errors"
  · subst hk
    simp [lookupField_setField_self]
  · rw [lookupField_setField_ne _ _ _ _ hk]
    cases hmk : lookupField
        (assignFields (spreadFields s) (spreadFields nextPart)) k with
    | some v => simp [hk, hmk, getKey, jsSpread2]
    | none =>
        obtain ⟨hss, hnn⟩ :=
          (lookup_assignFields_none (spreadFields nextPart)
            (spreadFields s) k).mp hmk
        simp [hk, hmk, hss, hnn, getKey, jsSpread2]

theorem getKey_spreadWith_self (v : JVal) (k : String) (e : JVal) :
    getKey (spreadWith v k e) k = e := by
  simp [spreadWith, getKey, lookupField_setField_self]

theorem getKey_spreadWith_ne (a : Bool) (fs : List (String × JVal))
    (kk : String) (e : JVal) (j : String) (hj : j ≠ kk) :
    getKey (spreadWith (.obj a fs) kk e) j = getKey (.obj a fs) j := by
  simp [spreadWith, getKey, spreadFields, lookupField_setField_ne _ _ _ _ hj]

theorem container_of_truthy_getPath (s : JVal) (p : JPath) (hp : p ≠ [])
    (h : truthy (getPath s p) = true) : s.isContainer = true := by
  by_contra hc
  rw [getPath_of_not_container s p (by simpa using hc) hp] at h
  simp [truthy, falsy] at h

theorem formComputeInvoked_formPath (validate : JVal → Option JVal)
    (fp : JPath) (hfp : fp ≠ []) (s : JVal)
    (hform : truthy (getPath s fp) = true) :
    getPath (formComputeInvoked validate fp s) fp =
      spreadWith (getPath s fp) "errors"
        ((validate (getKey (getPath s fp) "values")).getD .undefined) ∧
    (∀ q, fp.isPrefixOf q = false → q.isPrefixOf fp = false →
      getPath (formComputeInvoked validate fp s) q = getPath s q) := by
  have hcont : s.isContainer = true := container_of_truthy_getPath s fp hfp hform
  have hempty : fp.isEmpty = false := by
    cases fp with
    | nil => exact absurd rfl hfp
    | cons a b => rfl
  have hfalsy : falsy (getPath s fp) = false := by
    simpa [truthy] using hform
  have h1 : getKey JVal.undefined "values" = JVal.undefined := rfl
  have h2 : truthy JVal.undefined = false := rfl
  have hunfold : formComputeInvoked validate fp s =
      setPath (setPath s fp (getPath s fp)) fp
        (spreadWith (getPath s fp) "errors"
          ((validate (getKey (getPath s fp) "values")).getD .undefined)) := by
    simp only [formComputeInvoked, formCompute, getWithOptionalPath,
      setWithOptionalPath, hempty, Bool.false_eq_true, if_false, hfalsy,
      getPath_undefined, h1, h2, Bool.false_and]
  have hdraftc : (setPath s fp (getPath s fp)).isContainer = true := by
    rw [isContainer_setPath]; exact hcont
  constructor
  · rw [hunfold, getPath_setPath_self fp _ _ hdraftc hfp]
  · intro q h1 h2
    rw [hunfold, getPath_setPath_frame fp q _ _ h1 h2,
      getPath_setPath_frame fp q _ _ h1 h2]

theorem getPath_getKey (v : JVal) (k : String) (p : JPath) :
    getPath (getKey v k) p = getPath v (k :: p) := rfl

theorem isPrefixOf_cons_ne (a b : String) (as bs : JPath) (h : a ≠ b) :
    (a :: as).isPrefixOf (b :: bs) = false := by
  simp [List.isPrefixOf, h]

theorem isPrefixOf_cons_same (a : String) (as bs : JPath) :
    (a :: as).isPrefixOf (a :: bs) = as.isPrefixOf bs := by
  simp [List.isPrefixOf]

theorem hasPath_setPath_top_ne (v : JVal) (k : String) (ks : JPath) (x : JVal)
    (j : String) (qs : JPath) (h : j ≠ k) :
    hasPath (setPath v (k :: ks) x) (j :: qs) = hasPath v (j :: qs) := by
  simp [hasPath, hasKey_setPath_top_ne v k ks x j h,
    getKey_setPath_top_ne v k ks x j h]

theorem applyScopedSet_val_values (s : JVal) (p : JPath) (x : JVal) :
    applyScopedSet s p (.val (.obj false [("values", x)])) =
      setPath (setPath (setPath (setPath s ("values" :: p) x)
          ("errors" :: p) (getPath (getKey s "errors") p))
          ("dirty" :: p) (getPath (getKey s "dirty") p))
        ("touched" :: p) (getPath (getKey s "touched") p) := rfl

theorem spreadFields_setPath_nodup (v : JVal) (k : String) (ks : JPath)
    (x : JVal) (h : ((spreadFields v).map Prod.fst).Nodup) :
    ((spreadFields (setPath v (k :: ks) x)).map Prod.fst).Nodup := by
  cases v with
  | obj a fs =>
      cases ks with
      | nil =>
          rw [setPath_single]
          exact nodup_setField _ _ _ h
      | cons k2 kt =>
          rw [setPath_cons]
          exact nodup_setField _ _ _ h
  | undefined => exact h
  | jsNull => exact h
  | bool b => exact h
  | num n => exact h
  | str ss => exact h

theorem lookup_spreadFields_of_hasKey (v : JVal) (k : String)
    (h : hasKey v k = true) :
    lookupField (spreadFields v) k = some (getKey v k) := by
  cases v with
  | obj a fs =>
      simp only [hasKey, Option.isSome_iff_exists] at h
      obtain ⟨w, hw⟩ := h
      simp [spreadFields, getKey, hw]
  | undefined => simp [hasKey] at h
  | jsNull => simp [hasKey] at h
  | bool b => simp [hasKey] at h
  | num n => simp [hasKey] at h
  | str ss => simp [hasKey] at h

/-- The four-tree write of a values-only scoped `setState`, described
pointwise: the values tree holds `x` at `p`; the errors, dirty and touched
trees own an entry at `p` carrying the previously resolved scoped value;
and the values tree is untouched at every path diverging from `p`. -/
theorem applyScopedSet_val_values_spec (s : JVal) (p : JPath) (x : JVal)
    (hc : s.isContainer = true) :
    getPath (applyScopedSet s p (.val (.obj false [("values", x)])))
      ("values" :: p) = x ∧
    getPath (applyScopedSet s p (.val (.obj false [("values", x)])))
      ("errors" :: p) = getPath s ("errors" :: p) ∧
    getPath (applyScopedSet s p (.val (.obj false [("values", x)])))
      ("dirty" :: p) = getPath s ("dirty" :: p) ∧
    getPath (applyScopedSet s p (.val (.obj false [("values", x)])))
      ("touched" :: p) = getPath s ("touched" :: p) ∧
    hasPath (applyScopedSet s p (.val (.obj false [("values", x)])))
      ("errors" :: p) = true ∧
    hasPath (applyScopedSet s p (.val (.obj false [("values", x)])))
      ("dirty" :: p) = true ∧
    hasPath (applyScopedSet s p (.val (.obj false [("values", x)])))
      ("touched" :: p) = true ∧
    (∀ q, p.isPrefixOf q = false → q.isPrefixOf p = false →
      getPath (applyScopedSet s p (.val (.obj false [("values", x)])))
        ("values" :: q) = getPath s ("values" :: q)) := by
  rw [applyScopedSet_val_values]
  have hc1 : (setPath s ("values" :: p) x).isContainer = true := by
    rw [isContainer_setPath]; exact hc
  have hc2 : (setPath (setPath s ("values" :: p) x) ("errors" :: p)
      (getPath (getKey s "errors") p)).isContainer = true := by
    rw [isContainer_setPath]; exact hc1
  have hc3 : (setPath (setPath (setPath s ("values" :: p) x) ("errors" :: p)
      (getPath (getKey s "errors") p)) ("dirty" :: p)
      (getPath (getKey s "dirty") p)).isContainer = true := by
    rw [isContainer_setPath]; exact hc2
  have hvd : ("values" : String) ≠ "dirty" := by decide
  have hve : ("values" : String) ≠ "errors" := by decide
  have hvt : ("values" : String) ≠ "touched" := by decide
  have het : ("errors" : String) ≠ "touched" := by decide
  have hed : ("errors" : String) ≠ "dirty" := by decide
  have hdt : ("dirty" : String) ≠ "touched" := by decide
  refine ⟨?_, ?_, ?_, ?_, ?_, ?_, ?_, ?_⟩
  · rw [getPath_setPath_frame _ _ _ _ (isPrefixOf_cons_ne _ _ _ _ hvt.symm)
        (isPrefixOf_cons_ne _ _ _ _ hvt),
      getPath_setPath_frame _ _ _ _ (isPrefixOf_cons_ne _ _ _ _ hvd.symm)
        (isPrefixOf_cons_ne _ _ _ _ hvd),
      getPath_setPath_frame _ _ _ _ (isPrefixOf_cons_ne _ _ _ _ hve.symm)
        (isPrefixOf_cons_ne _ _ _ _ hve)]
    exact getPath_setPath_self _ _ _ hc (by simp)
  · rw [getPath_setPath_frame _ _ _ _ (isPrefixOf_cons_ne _ _ _ _ het.symm)
        (isPrefixOf_cons_ne _ _ _ _ het),
      getPath_setPath_frame _ _ _ _ (isPrefixOf_cons_ne _ _ _ _ hed.symm)
        (isPrefixOf_cons_ne _ _ _ _ hed),
      getPath_setPath_self _ _ _ hc1 (by simp), getPath_getKey]
  · rw [getPath_setPath_frame _ _ _ _ (isPrefixOf_cons_ne _ _ _ _ hdt.symm)
        (isPrefixOf_cons_ne _ _ _ _ hdt),
      getPath_setPath_self _ _ _ hc2 (by simp), getPath_getKey]
  · rw [getPath_setPath_self _ _ _ hc3 (by simp), getPath_getKey]
  · rw [hasPath_setPath_top_ne _ _ _ _ _ _ het,
      hasPath_setPath_top_ne _ _ _ _ _ _ hed]
    exact hasPath_setPath_self _ _ _ hc1 (by simp)
  · rw [hasPath_setPath_top_ne _ _ _ _ _ _ hdt]
    exact hasPath_setPath_self _ _ _ hc2 (by simp)
  · exact hasPath_setPath_self _ _ _ hc3 (by simp)
  · intro q h1 h2
    rw [getPath_setPath_frame _ _ _ _ (isPrefixOf_cons_ne _ _ _ _ hvt.symm)
        (isPrefixOf_cons_ne _ _ _ _ hvt),
      getPath_setPath_frame _ _ _ _ (isPrefixOf_cons_ne _ _ _ _ hvd.symm)
        (isPrefixOf_cons_ne _ _ _ _ hvd),
      getPath_setPath_frame _ _ _ _ (isPrefixOf_cons_ne _ _ _ _ hve.symm)
        (isPrefixOf_cons_ne _ _ _ _ hve)]
    exact getPath_setPath_frame _ _ _ _
      (by rw [isPrefixOf_cons_same]; exact h1)
      (by rw [isPrefixOf_cons_same]; exact h2)

/-! ## Claim theorems -/

/-- C1: the claim states that on every value-changing transition through
`withForm` the middleware diffs the previous and current values and marks
every changed path (and its ancestors) `_touched`/`_dirty`.  The code
contradicts this: `createComputer` invokes the compute function with a
single argument, so `createFormComputer`'s declared `prevState` parameter
is `undefined`, `previousValues` is `undefined`, and the marking branch is
unreachable.  Evaluating the composed middleware at Scenario A's
`onChange("Al")` value write: `values.name` becomes `"Al"` and the values
differ from the previous state's, yet the `touched` and `dirty` trees stay
entirely absent — `touched.name._touched` and `dirty.name._dirty` are
`undefined`, not `true`. -/
theorem middleware_diff_marking_never_fires :
    getPath scenarioNextState ["values", "name"] = .str "Al" ∧
    isEqual (getKey scenarioInitialState "values")
      (getKey scenarioNextState "values") = false ∧
    getKey scenarioNextState "touched" = .undefined ∧
    getKey scenarioNextState "dirty" = .undefined ∧
    getPath scenarioNextState ["touched", "name", "_touched"] = .undefined ∧
    getPath scenarioNextState ["dirty", "name", "_dirty"] = .undefined :=
  ⟨rfl, rfl, rfl, rfl, rfl, rfl⟩

/-- C4: after a recomputation-triggering transition through `withForm`
(and on the initial creation pass), the form node's `errors` property
equals exactly the validator's formatted error tree for the current
values, and is `undefined` when validation succeeds; the middleware
changes no other property of the form node (in particular it maintains no
`isValid` boolean).  Shown for the root-form case through the composed
`setState`, for a non-empty `formPath` at the compute step, and at
Scenario A's initial state, whose `errors.name._errors` carries the
required-message while `touched` and `dirty` are absent. -/
theorem errors_equal_validator_output (validate : JVal → Option JVal)
    (s nextPart : JVal)
    (hs : ((spreadFields s).map Prod.fst).Nodup)
    (hn : ((spreadFields nextPart).map Prod.fst).Nodup)
    (fp : JPath) (hfp : fp ≠ []) (s2 : JVal)
    (hform : truthy (getPath s2 fp) = true) :
    getKey (withFormSetState validate [] s nextPart true) "errors" =
      (validate (getKey (withFormSetState validate [] s nextPart true)
        "values")).getD .undefined ∧
    getKey (withFormSetState validate [] s nextPart true) "values" =
      getKey (jsSpread2 s nextPart) "values" ∧
    (∀ k, k ≠ "errors" →
      getKey (withFormSetState validate [] s nextPart true) k =
        getKey (jsSpread2 s nextPart) k) ∧
    getKey (getPath (formComputeInvoked validate fp s2) fp) "errors" =
      (validate (getKey (getPath s2 fp) "values")).getD .undefined ∧
    getPath scenarioInitialState ["errors", "name", "_errors", "0"] =
      .str "Name is required" ∧
    getKey scenarioInitialState "touched" = .undefined ∧
    getKey scenarioInitialState "dirty" = .undefined := by
  have hvals : getKey (withFormSetState validate [] s nextPart true) "values" =
      getKey (jsSpread2 s nextPart) "values" := by
    rw [getKey_withFormSetState_root validate s nextPart "values" hs hn]
    simp
  refine ⟨?_, hvals, ?_, ?_, rfl, rfl, rfl⟩
  · rw [hvals, getKey_withFormSetState_root validate s nextPart "errors" hs hn]
    simp
  · intro k hk
    rw [getKey_withFormSetState_root validate s nextPart k hs hn]
    simp [hk]
  · rw [(formComputeInvoked_formPath validate fp hfp s2 hform).1,
      getKey_spreadWith_self]

/-- C2: the scoped store's `getState` resolves each of the four trees from
the root's corresponding tree at the path: `values` deep-equals
`resolve(root.values, p)` and analogously for errors, touched and dirty.
Because `getState` recomputes from the current root state, the identity
holds for every root state — hence at all times, whatever sequence of
store operations produced it; in particular, right after a scoped write of
`x` at `p` the resolved values slice is `x`. -/
theorem scoped_state_resolves_from_root (s : JVal) (p : JPath) :
    getKey (getScopedFormState s p) "values" = getPath (getKey s "values") p ∧
    getKey (getScopedFormState s p) "errors" = getPath (getKey s "errors") p ∧
    getKey (getScopedFormState s p) "touched" =
      getPath (getKey s "touched") p ∧
    getKey (getScopedFormState s p) "dirty" = getPath (getKey s "dirty") p ∧
    (∀ x, s.isContainer = true →
      getKey (getScopedFormState
        (applyScopedSet s p (.val (.obj false [("values", x)]))) p)
        "values" = x) := by
  refine ⟨rfl, rfl, rfl, rfl, ?_⟩
  intro x hc
  show getPath (getKey (applyScopedSet s p
    (.val (.obj false [("values", x)]))) "values") p = x
  rw [getPath_getKey]
  exact (applyScopedSet_val_values_spec s p x hc).1

theorem scoped_state_resolves_from_root_witness :
    JVal.isContainer subPrevState = true ∧
    getKey (getScopedFormState (applyScopedSet subPrevState ["user"]
        (.val (.obj false [("values", JVal.num 7)]))) ["user"]) "values" =
      JVal.num 7 :=
  ⟨rfl, (scoped_state_resolves_from_root subPrevState ["user"]).2.2.2.2
    (JVal.num 7) rfl⟩

/-- C10: every values-only scoped `setState` writes all four root trees
unconditionally: after writing only `values` at path `p`, the values tree
holds the new value while the root's errors, touched and dirty trees own
an entry at `p` holding the previously resolved scoped value (possibly
undefined); shown concretely, writing `values` at `user.name` of a root
with no `errors`/`touched`/`dirty` trees materializes
`{user: {name: undefined}}` plain-object shells in all three. -/
theorem scoped_setState_writes_all_four_trees (s : JVal) (p : JPath)
    (x : JVal) (hc : s.isContainer = true) :
    getPath (applyScopedSet s p (.val (.obj false [("values", x)])))
      ("values" :: p) = x ∧
    hasPath (applyScopedSet s p (.val (.obj false [("values", x)])))
      ("errors" :: p) = true ∧
    hasPath (applyScopedSet s p (.val (.obj false [("values", x)])))
      ("dirty" :: p) = true ∧
    hasPath (applyScopedSet s p (.val (.obj false [("values", x)])))
      ("touched" :: p) = true ∧
    getPath (applyScopedSet s p (.val (.obj false [("values", x)])))
      ("errors" :: p) = getPath s ("errors" :: p) ∧
    getPath (applyScopedSet s p (.val (.obj false [("values", x)])))
      ("dirty" :: p) = getPath s ("dirty" :: p) ∧
    getPath (applyScopedSet s p (.val (.obj false [("values", x)])))
      ("touched" :: p) = getPath s ("touched" :: p) ∧
    getKey (applyScopedSet subPrevState ["user", "name"]
        (.val (.obj false [("values", JVal.str "B")]))) "errors" =
      .obj false [("user", .obj false [("name", JVal.undefined)])] ∧
    getKey (applyScopedSet subPrevState ["user", "name"]
        (.val (.obj false [("values", JVal.str "B")]))) "touched" =
      .obj false [("user", .obj false [("name", JVal.undefined)])] ∧
    getKey (applyScopedSet subPrevState ["user", "name"]
        (.val (.obj false [("values", JVal.str "B")]))) "dirty" =
      .obj false [("user", .obj false [("name", JVal.undefined)])] := by
  have h := applyScopedSet_val_values_spec s p x hc
  exact ⟨h.1, h.2.2.2.2.1, h.2.2.2.2.2.1, h.2.2.2.2.2.2.1, h.2.1, h.2.2.1,
    h.2.2.2.1, rfl, rfl, rfl⟩

theorem scoped_setState_writes_all_four_trees_witness :
    JVal.isContainer subPrevState = true ∧
    hasPath (applyScopedSet subPrevState ["user", "name"]
      (.val (.obj false [("values", JVal.str "B")])))
      ["errors", "user", "name"] = true :=
  ⟨rfl, (scoped_setState_writes_all_four_trees subPrevState ["user", "name"]
    (JVal.str "B") rfl).2.1⟩

/-- C3: writing `x` through a scoped store via `setState({values: x})`
leaves the root's values tree holding `x` at `p` — shown through the full
enhanced-store transition, recomputation included — and no path of the
values tree diverging from `p` changes; the four tree assignments are all
carried by the single state transition handed to the one root `setState`
(zustand receives one updater whose produced state already contains all
four writes). -/
theorem scoped_write_propagates_to_root (validate : JVal → Option JVal)
    (s : JVal) (p : JPath) (x : JVal) (hc : s.isContainer = true)
    (hs : ((spreadFields s).map Prod.fst).Nodup) :
    getPath (scopedSetThroughForm validate s p
      (.val (.obj false [("values", x)])) true) ("values" :: p) = x ∧
    (∀ q, p.isPrefixOf q = false → q.isPrefixOf p = false →
      getPath (scopedSetThroughForm validate s p
        (.val (.obj false [("values", x)])) true) ("values" :: q) =
      getPath s ("values" :: q)) ∧
    getPath (applyScopedSet s p (.val (.obj false [("values", x)])))
      ("values" :: p) = x ∧
    getPath (applyScopedSet s p (.val (.obj false [("values", x)])))
      ("errors" :: p) = getPath s ("errors" :: p) ∧
    getPath (applyScopedSet s p (.val (.obj false [("values", x)])))
      ("dirty" :: p) = getPath s ("dirty" :: p) ∧
    getPath (applyScopedSet s p (.val (.obj false [("values", x)])))
      ("touched" :: p) = getPath s ("touched" :: p) := by
  have hrfl : scopedSetThroughForm validate s p
      (.val (.obj false [("values", x)])) true =
      withFormSetState validate [] s
        (applyScopedSet s p (.val (.obj false [("values", x)]))) true := rfl
  have hspec := applyScopedSet_val_values_spec s p x hc
  have hn : ((spreadFields (applyScopedSet s p
      (.val (.obj false [("values", x)])))).map Prod.fst).Nodup := by
    rw [applyScopedSet_val_values]
    exact spreadFields_setPath_nodup _ _ _ _
      (spreadFields_setPath_nodup _ _ _ _
        (spreadFields_setPath_nodup _ _ _ _
          (spreadFields_setPath_nodup _ _ _ _ hs)))
  have hhk : hasKey (applyScopedSet s p
      (.val (.obj false [("values", x)]))) "values" = true := by
    rw [applyScopedSet_val_values]
    rcases s with _ | _ | _ | _ | _ | ⟨a, fs⟩ <;>
      simp [JVal.isContainer] at hc
    rw [hasKey_setPath_top_ne _ _ _ _ _
        (by decide : ("values" : String) ≠ "touched"),
      hasKey_setPath_top_ne _ _ _ _ _
        (by decide : ("values" : String) ≠ "dirty"),
      hasKey_setPath_top_ne _ _ _ _ _
        (by decide : ("values" : String) ≠ "errors")]
    exact hasKey_setPath_top_self a fs "values" p x
  have hkv : getKey (withFormSetState validate [] s
      (applyScopedSet s p (.val (.obj false [("values", x)]))) true)
      "values" =
      getKey (applyScopedSet s p (.val (.obj false [("values", x)])))
        "values" := by
    rw [getKey_withFormSetState_root validate _ _ "values" hs hn]
    rw [if_neg (by decide : ¬("values" : String) = "errors")]
    rw [getKey_jsSpread2_eq _ _ _ hn, lookup_spreadFields_of_hasKey _ _ hhk]
  refine ⟨?_, ?_, hspec.1, hspec.2.1, hspec.2.2.1, hspec.2.2.2.1⟩
  · rw [hrfl, ← getPath_getKey, hkv, getPath_getKey]
    exact hspec.1
  · intro q h1 h2
    rw [hrfl, ← getPath_getKey, hkv, getPath_getKey]
    exact hspec.2.2.2.2.2.2.2 q h1 h2

theorem scoped_write_propagates_to_root_witness :
    JVal.isContainer scenarioInitialState = true ∧
    ((spreadFields scenarioInitialState).map Prod.fst).Nodup ∧
    getPath (scopedSetThroughForm requiredNameValidator scenarioInitialState
      ["name"] (.val (.obj false [("values", JVal.str "Zed")])) true)
      ["values", "name"] = JVal.str "Zed" :=
  ⟨rfl, by decide,
    (scoped_write_propagates_to_root requiredNameValidator
      scenarioInitialState ["name"] (JVal.str "Zed") rfl (by decide)).1⟩

theorem one_le_sizeOf_jval (v : JVal) : 1 ≤ sizeOf v := by
  cases v <;> simp_arith

theorem isPrefixOf_self (l : JPath) : l.isPrefixOf l = true := by
  induction l with
  | nil => rfl
  | cons a as ih => simp [List.isPrefixOf, ih]

theorem isPrefixOf_append_right (l t : JPath) :
    l.isPrefixOf (l ++ t) = true := by
  induction l with
  | nil => simp [List.isPrefixOf]
  | cons a as ih => simp [List.isPrefixOf, ih]

theorem isPrefixOf_trans {a b c : JPath} (h1 : a.isPrefixOf b = true)
    (h2 : b.isPrefixOf c = true) : a.isPrefixOf c = true := by
  induction a generalizing b c with
  | nil => simp [List.isPrefixOf]
  | cons x xs ih =>
      cases b with
      | nil => simp [List.isPrefixOf] at h1
      | cons y bs =>
          cases c with
          | nil => simp [List.isPrefixOf] at h2
          | cons z cs =>
              simp only [List.isPrefixOf, Bool.and_eq_true, beq_iff_eq]
                at h1 h2 ⊢
              exact ⟨h1.1.trans h2.1, ih h1.2 h2.2⟩

theorem take_of_isPrefixOf (p : JPath) : ∀ l, p.isPrefixOf l = true →
    l.take p.length = p := by
  induction p with
  | nil => intro l h; simp
  | cons x xs ih =>
      intro l h
      cases l with
      | nil => simp [List.isPrefixOf] at h
      | cons y ys =>
          simp only [List.isPrefixOf, Bool.and_eq_true, beq_iff_eq] at h
          obtain ⟨h1, h2⟩ := h
          subst h1
          simp [ih ys h2]

theorem eq_of_prefixes_same_length {p1 p2 l : JPath}
    (h1 : p1.isPrefixOf l = true) (h2 : p2.isPrefixOf l = true)
    (hlen : p1.length = p2.length) : p1 = p2 := by
  rw [← take_of_isPrefixOf p1 l h1, ← take_of_isPrefixOf p2 l h2, hlen]

theorem mem_findChangedPaths_prefix :
    ∀ (N : ℕ) (o n : JVal) (cur : JPath), sizeOf o + sizeOf n ≤ N →
      ∀ r ∈ findChangedPaths o n cur, cur.isPrefixOf r = true := by
  intro N
  induction N with
  | zero =>
      intro o n cur h
      have h1 := one_le_sizeOf_jval o
      have h2 := one_le_sizeOf_jval n
      omega
  | succ N ih =>
      intro o n cur hN r hr
      rw [findChangedPaths.eq_def] at hr
      split at hr
      · simp at hr
      · split at hr
        · split at hr
          · simp at hr
          · simp at hr
            rw [hr]
            exact isPrefixOf_self cur
        · rename_i hcond
          rw [List.mem_flatten] at hr
          obtain ⟨l, hl, hrl⟩ := hr
          rw [List.mem_map] at hl
          obtain ⟨key, hkey, rfl⟩ := hl
          dsimp only at hrl
          split at hrl
          · simp at hrl
          · simp only [not_or, Bool.not_eq_false] at hcond
            obtain ⟨hoc, hnc, _⟩ := hcond
            rcases o with _ | _ | _ | _ | _ | ⟨a, fs⟩ <;>
              simp [JVal.isContainer] at hoc
            rcases n with _ | _ | _ | _ | _ | ⟨b, gs⟩ <;>
              simp [JVal.isContainer] at hnc
            have hso := sizeOf_getKey_lt a fs key
            have hsn := sizeOf_getKey_lt b gs key
            have hp := ih (getKey (.obj a fs) key) (getKey (.obj b gs) key)
              (cur ++ [key]) (by omega) r hrl
            exact isPrefixOf_trans (isPrefixOf_append_right cur [key]) hp

theorem mem_findChangedPaths_prefix' (o n : JVal) (cur : JPath) :
    ∀ r ∈ findChangedPaths o n cur, cur.isPrefixOf r = true :=
  mem_findChangedPaths_prefix (sizeOf o + sizeOf n) o n cur le_rfl

theorem pairwise_findChangedPaths :
    ∀ (N : ℕ) (o n : JVal) (cur : JPath), sizeOf o + sizeOf n ≤ N →
      (findChangedPaths o n cur).Pairwise
        (fun p q => p.isPrefixOf q = false ∧ q.isPrefixOf p = false) := by
  intro N
  induction N with
  | zero =>
      intro o n cur h
      have h1 := one_le_sizeOf_jval o
      have h2 := one_le_sizeOf_jval n
      omega
  | succ N ih =>
      intro o n cur hN
      rw [findChangedPaths.eq_def]
      split
      · exact List.Pairwise.nil
      · split
        · split
          · exact List.Pairwise.nil
          · exact List.pairwise_singleton _ _
        · rename_i hcond
          simp only [not_or, Bool.not_eq_false] at hcond
          obtain ⟨hoc, hnc, _⟩ := hcond
          rcases o with _ | _ | _ | _ | _ | ⟨a, fs⟩ <;>
            simp [JVal.isContainer] at hoc
          rcases n with _ | _ | _ | _ | _ | ⟨b, gs⟩ <;>
            simp [JVal.isContainer] at hnc
          rw [List.pairwise_flatten]
          constructor
          · intro l hl
            rw [List.mem_map] at hl
            obtain ⟨key, hkey, rfl⟩ := hl
            dsimp only
            split
            · exact List.Pairwise.nil
            · have hso := sizeOf_getKey_lt a fs key
              have hsn := sizeOf_getKey_lt b gs key
              exact ih _ _ _ (by omega)
          · rw [List.pairwise_map]
            have hnd : (unionKeys (.obj a fs) (.obj b gs)).Nodup :=
              List.nodup_dedup _
            refine List.Pairwise.imp ?_ hnd
            intro k k' hkk x hx y hy
            dsimp only at hx hy
            split at hx
            · simp at hx
            · split at hy
              · simp at hy
              · have hpx := mem_findChangedPaths_prefix' _ _ _ x hx
                have hpy := mem_findChangedPaths_prefix' _ _ _ y hy
                constructor
                · by_contra hxy
                  rw [Bool.not_eq_false] at hxy
                  have hky : (cur ++ [k]).isPrefixOf y = true :=
                    isPrefixOf_trans hpx hxy
                  have heq : cur ++ [k] = cur ++ [k'] :=
                    eq_of_prefixes_same_length hky hpy (by simp)
                  exact hkk (by simpa using heq)
                · by_contra hyx
                  rw [Bool.not_eq_false] at hyx
                  have hkx : (cur ++ [k']).isPrefixOf x = true :=
                    isPrefixOf_trans hpy hyx
                  have heq : cur ++ [k] = cur ++ [k'] :=
                    eq_of_prefixes_same_length hpx hkx (by simp)
                  exact hkk (by simpa using heq)

theorem append_drop_of_isPrefixOf (p l : JPath) (h : p.isPrefixOf l = true) :
    p ++ l.drop p.length = l := by
  conv_rhs => rw [← List.take_append_drop p.length l]
  rw [take_of_isPrefixOf p l h]

theorem mem_of_append_singleton_isPrefixOf (u : JPath) (a : String) :
    ∀ l, (u ++ [a]).isPrefixOf l = true → a ∈ l := by
  induction u with
  | nil =>
      intro l h
      cases l with
      | nil => simp [List.isPrefixOf] at h
      | cons y ys =>
          simp only [List.nil_append, List.isPrefixOf, Bool.and_eq_true,
            beq_iff_eq] at h
          simp [h.1]
  | cons b bs ih =>
      intro l h
      cases l with
      | nil => simp [List.isPrefixOf] at h
      | cons y ys =>
          simp only [List.cons_append, List.isPrefixOf, Bool.and_eq_true,
            beq_iff_eq] at h
          exact List.mem_cons_of_mem y (ih ys h.2)

/-- Writing back the previously resolved value at `P` preserves any `true`
mark at a path `T` that is not a strict ancestor of `P`. -/
theorem mark_preserved_setPath (t : JVal) (P T : JPath) (w : JVal)
    (hTP : T.isPrefixOf P = false) (hw : w = getPath t P)
    (hm : getPath t T = .bool true) (htc : t.isContainer = true)
    (hP : P ≠ []) : getPath (setPath t P w) T = .bool true := by
  by_cases h1 : P.isPrefixOf T = true
  · have hT : P ++ T.drop P.length = T := append_drop_of_isPrefixOf P T h1
    rw [← hT, getPath_setPath_extend P t w _ htc hP, hw, ← getPath_append,
      hT]
    exact hm
  · have h1f : P.isPrefixOf T = false := by
      cases hpt : P.isPrefixOf T
      · rfl
      · exact absurd hpt h1
    rw [getPath_setPath_frame P T t w h1f hTP]
    exact hm

theorem hasKey_setPath_top_self_c (v : JVal) (k : String) (ks : JPath)
    (x : JVal) (hc : v.isContainer = true) :
    hasKey (setPath v (k :: ks) x) k = true := by
  rcases v with _ | _ | _ | _ | _ | ⟨a, fs⟩ <;> simp [JVal.isContainer] at hc
  exact hasKey_setPath_top_self a fs k ks x

theorem marks_monotone_applyScopedSet (s : JVal) (p0 : JPath) (x : JVal)
    (q : JPath) (hc : s.isContainer = true) (ht : "_touched" ∉ p0)
    (hd : "_dirty" ∉ p0) :
    (getPath s ("touched" :: (q ++ ["_touched"])) = .bool true →
      getPath (applyScopedSet s p0 (.val (.obj false [("values", x)])))
        ("touched" :: (q ++ ["_touched"])) = .bool true) ∧
    (getPath s ("dirty" :: (q ++ ["_dirty"])) = .bool true →
      getPath (applyScopedSet s p0 (.val (.obj false [("values", x)])))
        ("dirty" :: (q ++ ["_dirty"])) = .bool true) := by
  have hvd : ("values" : String) ≠ "dirty" := by decide
  have hve : ("values" : String) ≠ "errors" := by decide
  have hvt : ("values" : String) ≠ "touched" := by decide
  have het : ("errors" : String) ≠ "touched" := by decide
  have hed : ("errors" : String) ≠ "dirty" := by decide
  have hdt : ("dirty" : String) ≠ "touched" := by decide
  have hc1 : (setPath s ("values" :: p0) x).isContainer = true := by
    rw [isContainer_setPath]; exact hc
  have hc2 : (setPath (setPath s ("values" :: p0) x) ("errors" :: p0)
      (getPath (getKey s "errors") p0)).isContainer = true := by
    rw [isContainer_setPath]; exact hc1
  have hc3 : (setPath (setPath (setPath s ("values" :: p0) x)
      ("errors" :: p0) (getPath (getKey s "errors") p0)) ("dirty" :: p0)
      (getPath (getKey s "dirty") p0)).isContainer = true := by
    rw [isContainer_setPath]; exact hc2
  rw [applyScopedSet_val_values]
  constructor
  · intro hm
    have hTP : ("touched" :: (q ++ ["_touched"])).isPrefixOf
        ("touched" :: p0) = false := by
      by_contra hh
      rw [Bool.not_eq_false, isPrefixOf_cons_same] at hh
      exact ht (mem_of_append_singleton_isPrefixOf q "_touched" p0 hh)
    apply mark_preserved_setPath _ _ _ _ hTP ?_ ?_ hc3 (by simp)
    · rw [getPath_getKey,
        getPath_setPath_frame _ _ _ _ (isPrefixOf_cons_ne _ _ _ _ hdt)
          (isPrefixOf_cons_ne _ _ _ _ hdt.symm),
        getPath_setPath_frame _ _ _ _ (isPrefixOf_cons_ne _ _ _ _ het)
          (isPrefixOf_cons_ne _ _ _ _ het.symm),
        getPath_setPath_frame _ _ _ _ (isPrefixOf_cons_ne _ _ _ _ hvt)
          (isPrefixOf_cons_ne _ _ _ _ hvt.symm)]
    · rw [getPath_setPath_frame _ _ _ _ (isPrefixOf_cons_ne _ _ _ _ hdt)
          (isPrefixOf_cons_ne _ _ _ _ hdt.symm),
        getPath_setPath_frame _ _ _ _ (isPrefixOf_cons_ne _ _ _ _ het)
          (isPrefixOf_cons_ne _ _ _ _ het.symm),
        getPath_setPath_frame _ _ _ _ (isPrefixOf_cons_ne _ _ _ _ hvt)
          (isPrefixOf_cons_ne _ _ _ _ hvt.symm)]
      exact hm
  · intro hm
    have hDP : ("dirty" :: (q ++ ["_dirty"])).isPrefixOf
        ("dirty" :: p0) = false := by
      by_contra hh
      rw [Bool.not_eq_false, isPrefixOf_cons_same] at hh
      exact hd (mem_of_append_singleton_isPrefixOf q "_dirty" p0 hh)
    rw [getPath_setPath_frame _ _ _ _ (isPrefixOf_cons_ne _ _ _ _ hdt.symm)
      (isPrefixOf_cons_ne _ _ _ _ hdt)]
    apply mark_preserved_setPath _ _ _ _ hDP ?_ ?_ hc2 (by simp)
    · rw [getPath_getKey,
        getPath_setPath_frame _ _ _ _ (isPrefixOf_cons_ne _ _ _ _ hed)
          (isPrefixOf_cons_ne _ _ _ _ hed.symm),
        getPath_setPath_frame _ _ _ _ (isPrefixOf_cons_ne _ _ _ _ hvd)
          (isPrefixOf_cons_ne _ _ _ _ hvd.symm)]
    · rw [getPath_setPath_frame _ _ _ _ (isPrefixOf_cons_ne _ _ _ _ hed)
          (isPrefixOf_cons_ne _ _ _ _ hed.symm),
        getPath_setPath_frame _ _ _ _ (isPrefixOf_cons_ne _ _ _ _ hvd)
          (isPrefixOf_cons_ne _ _ _ _ hvd.symm)]
      exact hm

/-- C8: touched and dirty marks are monotonic.  Once a path carries
`_touched: true` (resp. `_dirty: true`), a subsequent write that only
changes values — a values-only scoped `setState` taken through the
enhanced store's recomputation, for any validator and any written value,
including the original one — leaves the mark in place; and the
recomputation of a values-only root partial preserves the whole `touched`
and `dirty` trees unchanged. -/
theorem touched_dirty_marks_monotonic (validate : JVal → Option JVal)
    (s : JVal) (p0 : JPath) (x : JVal) (q : JPath)
    (hs : ((spreadFields s).map Prod.fst).Nodup)
    (ht : "_touched" ∉ p0) (hd : "_dirty" ∉ p0) :
    (getPath s ("touched" :: (q ++ ["_touched"])) = .bool true →
      getPath (scopedSetThroughForm validate s p0
        (.val (.obj false [("values", x)])) true)
        ("touched" :: (q ++ ["_touched"])) = .bool true) ∧
    (getPath s ("dirty" :: (q ++ ["_dirty"])) = .bool true →
      getPath (scopedSetThroughForm validate s p0
        (.val (.obj false [("values", x)])) true)
        ("dirty" :: (q ++ ["_dirty"])) = .bool true) ∧
    (s.isContainer = true →
      getKey (withFormSetState validate [] s
        (.obj false [("values", x)]) true) "touched" =
        getKey s "touched" ∧
      getKey (withFormSetState validate [] s
        (.obj false [("values", x)]) true) "dirty" = getKey s "dirty") := by
  by_cases hc : s.isContainer = true
  case neg =>
    refine ⟨?_, ?_, ?_⟩
    · intro hm
      rw [getPath_of_not_container s _ (by simpa using hc) (by simp)] at hm
      simp at hm
    · intro hm
      rw [getPath_of_not_container s _ (by simpa using hc) (by simp)] at hm
      simp at hm
    · intro hcc
      exact absurd hcc hc
  case pos =>
    have hmono := marks_monotone_applyScopedSet s p0 x q hc ht hd
    have hn : ((spreadFields (applyScopedSet s p0
        (.val (.obj false [("values", x)])))).map Prod.fst).Nodup := by
      rw [applyScopedSet_val_values]
      exact spreadFields_setPath_nodup _ _ _ _
        (spreadFields_setPath_nodup _ _ _ _
          (spreadFields_setPath_nodup _ _ _ _
            (spreadFields_setPath_nodup _ _ _ _ hs)))
    have hc1 : (setPath s ("values" :: p0) x).isContainer = true := by
      rw [isContainer_setPath]; exact hc
    have hc2 : (setPath (setPath s ("values" :: p0) x) ("errors" :: p0)
        (getPath (getKey s "errors") p0)).isContainer = true := by
      rw [isContainer_setPath]; exact hc1
    have hc3 : (setPath (setPath (setPath s ("values" :: p0) x)
        ("errors" :: p0) (getPath (getKey s "errors") p0)) ("dirty" :: p0)
        (getPath (getKey s "dirty") p0)).isContainer = true := by
      rw [isContainer_setPath]; exact hc2
    have hkT : hasKey (applyScopedSet s p0
        (.val (.obj false [("values", x)]))) "touched" = true := by
      rw [applyScopedSet_val_values]
      exact hasKey_setPath_top_self_c _ _ _ _ hc3
    have hkD : hasKey (applyScopedSet s p0
        (.val (.obj false [("values", x)]))) "dirty" = true := by
      rw [applyScopedSet_val_values]
      rw [hasKey_setPath_top_ne _ _ _ _ _
        (by decide : ("dirty" : String) ≠ "touched")]
      exact hasKey_setPath_top_self_c _ _ _ _ hc2
    have hgT : getKey (withFormSetState validate [] s
        (applyScopedSet s p0 (.val (.obj false [("values", x)]))) true)
        "touched" =
        getKey (applyScopedSet s p0 (.val (.obj false [("values", x)])))
          "touched" := by
      rw [getKey_withFormSetState_root validate _ _ "touched" hs hn,
        if_neg (by decide : ¬("touched" : String) = "errors"),
        getKey_jsSpread2_eq _ _ _ hn, lookup_spreadFields_of_hasKey _ _ hkT]
    have hgD : getKey (withFormSetState validate [] s
        (applyScopedSet s p0 (.val (.obj false [("values", x)]))) true)
        "dirty" =
        getKey (applyScopedSet s p0 (.val (.obj false [("values", x)])))
          "dirty" := by
      rw [getKey_withFormSetState_root validate _ _ "dirty" hs hn,
        if_neg (by decide : ¬("dirty" : String) = "errors"),
        getKey_jsSpread2_eq _ _ _ hn, lookup_spreadFields_of_hasKey _ _ hkD]
    refine ⟨?_, ?_, ?_⟩
    · intro hm
      show getPath (withFormSetState validate [] s
        (applyScopedSet s p0 (.val (.obj false [("values", x)]))) true)
        ("touched" :: (q ++ ["_touched"])) = .bool true
      rw [← getPath_getKey, hgT, getPath_getKey]
      exact hmono.1 hm
    · intro hm
      show getPath (withFormSetState validate [] s
        (applyScopedSet s p0 (.val (.obj false [("values", x)]))) true)
        ("dirty" :: (q ++ ["_dirty"])) = .bool true
      rw [← getPath_getKey, hgD, getPath_getKey]
      exact hmono.2 hm
    · intro _
      have hn0 : ((spreadFields (JVal.obj false
          [("values", x)])).map Prod.fst).Nodup := by
        simp [spreadFields]
      constructor
      · rw [getKey_withFormSetState_root validate _ _ "touched" hs hn0,
          if_neg (by decide : ¬("touched" : String) = "errors"),
          getKey_jsSpread2_eq _ _ _ hn0]
        rcases s with _ | _ | _ | _ | _ | ⟨a, fs⟩ <;>
          simp [JVal.isContainer] at hc
        rfl
      · rw [getKey_withFormSetState_root validate _ _ "dirty" hs hn0,
          if_neg (by decide : ¬("dirty" : String) = "errors"),
          getKey_jsSpread2_eq _ _ _ hn0]
        rcases s with _ | _ | _ | _ | _ | ⟨a, fs⟩ <;>
          simp [JVal.isContainer] at hc
        rfl

theorem touched_dirty_marks_monotonic_witness :
    ((spreadFields markedFormState).map Prod.fst).Nodup ∧
    ("_touched" ∉ (["name"] : JPath)) ∧
    ("_dirty" ∉ (["name"] : JPath)) ∧
    getPath markedFormState ["touched", "name", "_touched"] = .bool true ∧
    getPath (scopedSetThroughForm requiredNameValidator markedFormState
      ["name"] (.val (.obj false [("values", JVal.str "A")])) true)
      ["touched", "name", "_touched"] = .bool true :=
  ⟨by decide, by decide, by decide, rfl,
    (touched_dirty_marks_monotonic requiredNameValidator markedFormState
      ["name"] (JVal.str "A") ["name"] (by decide) (by decide)
      (by decide)).1 rfl⟩

/-- C5: the change-detection utility returns the minimal set of deepest
differing paths: `findChangedPaths a a` is empty for every `a`; on
`{x: 1, y: 2}` versus `{x: 1, y: 3}` it returns exactly the path `y`; and
no returned path is an ancestor (proper or improper prefix) of another
returned path — ancestor marking is not part of its output. -/
theorem diff_returns_minimal_deepest_paths (a b : JVal) :
    findChangedPaths a a [] = [] ∧
    findChangedPaths (.obj false [("x", JVal.num 1), ("y", JVal.num 2)])
      (.obj false [("x", JVal.num 1), ("y", JVal.num 3)]) [] = [["y"]] ∧
    (findChangedPaths a b []).Pairwise
      (fun p q => p.isPrefixOf q = false ∧ q.isPrefixOf p = false) := by
  refine ⟨?_, ?_, pairwise_findChangedPaths (sizeOf a + sizeOf b) a b []
    le_rfl⟩
  · rw [findChangedPaths.eq_def, if_pos (isEqual_refl a)]
  · rw [findChangedPaths.eq_def]
    rw [if_neg (by decide :
      ¬(isEqual (.obj false [("x", JVal.num 1), ("y", JVal.num 2)])
        (.obj false [("x", JVal.num 1), ("y", JVal.num 3)]) = true))]
    rw [dif_neg (by decide :
      ¬((JVal.obj false [("x", JVal.num 1), ("y", JVal.num 2)]).isContainer
          = false ∨
        (JVal.obj false [("x", JVal.num 1), ("y", JVal.num 3)]).isContainer
          = false ∨
        (JVal.obj false [("x", JVal.num 1), ("y", JVal.num 2)]).arrFlag ≠
          (JVal.obj false [("x", JVal.num 1), ("y", JVal.num 3)]).arrFlag))]
    rw [show unionKeys (.obj false [("x", JVal.num 1), ("y", JVal.num 2)])
        (.obj false [("x", JVal.num 1), ("y", JVal.num 3)]) = ["x", "y"]
      from rfl]
    rw [List.map_cons, List.map_cons, List.map_nil]
    dsimp only
    rw [if_pos (show
      isEqual (getKey (.obj false [("x", JVal.num 1), ("y", JVal.num 2)]) "x")
        (getKey (.obj false [("x", JVal.num 1), ("y", JVal.num 3)]) "x") =
        true from rfl)]
    rw [if_neg (show
      ¬(isEqual (getKey (.obj false [("x", JVal.num 1), ("y", JVal.num 2)])
          "y")
        (getKey (.obj false [("x", JVal.num 1), ("y", JVal.num 3)]) "y") =
        true) from by decide)]
    rw [findChangedPaths.eq_def]
    rw [if_neg (show
      ¬(isEqual (getKey (.obj false [("x", JVal.num 1), ("y", JVal.num 2)])
          "y")
        (getKey (.obj false [("x", JVal.num 1), ("y", JVal.num 3)]) "y") =
        true) from by decide)]
    rw [dif_pos (Or.inl (show
      (getKey (.obj false [("x", JVal.num 1), ("y", JVal.num 2)])
        "y").isContainer = false from rfl))]
    decide

/-- C7 counterexample: the claim says the scoped subscribe does NOT invoke
the listener when only the scoped errors (or touched/dirty) differ.  In
the code, `getScopedFormApi(...).subscribe` compares the whole scoped
`FormState`: for two roots with deep-equal scoped values but different
scoped errors, the notification fires. -/
theorem scoped_subscribe_fires_on_errors_only_change :
    isEqual (getPath (getKey subNextState "values") ["user"])
      (getPath (getKey subPrevState "values") ["user"]) = true ∧
    scopedShouldNotify subNextState subPrevState ["user"] = true :=
  ⟨rfl, rfl⟩

/-- C7 amended: `getScopedFormApi(...).subscribe` invokes the listener
exactly when the whole scoped `FormState` — any of values, errors, dirty
or touched resolved at the path — differs by deep equality, so a change
only to the scoped errors also notifies; an unchanged root never
notifies.  The `user`/`other` scenario holds as stated for the generic
`getScopedApi(...).subscribe`, which compares the slice at the path:
`setState({other: 2})` does not notify a subscriber scoped at `"user"`,
while `setState({user: {name: "B"}})` does. -/
theorem scoped_subscribe_fires_iff_scoped_state_differs :
    (∀ s s' : JVal, ∀ p : JPath, scopedShouldNotify s' s p =
      !isEqual (getScopedFormState s' p) (getScopedFormState s p)) ∧
    scopedApiShouldNotify rootOther2 rootUserA ["user"] = false ∧
    scopedApiShouldNotify rootUserB rootUserA ["user"] = true ∧
    scopedShouldNotify subNextState subPrevState ["user"] = true ∧
    (∀ s : JVal, ∀ p : JPath, scopedShouldNotify s s p = false) :=
  ⟨fun _ _ _ => rfl, rfl, rfl, rfl, fun s p => by
    simp [scopedShouldNotify, isEqual_refl]⟩

/-- C9 counterexample: the claim says a throwing schema execution is
caught at the middleware boundary, logged, and the previous derived state
retained.  There is no try/catch in `createFormComputer` or
`createComputer`: with a `getSchema` that throws, the whole `setState`
evaluates to the propagated exception instead of an `ok` state. -/
theorem schema_throw_propagates_counterexample :
    withFormSetStateE (fun _ => .error "schema exploded") []
      scenarioInitialState scenarioChangePartial true =
      .error "schema exploded" := rfl

/-- C9 amended: an exception thrown inside the derivation (here: the
`getSchema` call) during a recomputation-triggering `setState` propagates
out of the middleware to the `setState` caller — nothing is caught or
logged, and no state update is applied. -/
theorem schema_throw_propagates (e : String) (fp : JPath) (s upd : JVal) :
    withFormSetStateE (fun _ => .error e) fp s upd true = .error e := rfl

/-- C6 counterexample: the round-trip claim fails for the empty path:
`setWithOptionalPath` merges with `Object.assign` semantics rather than
replacing, so resolving the empty path afterwards yields the merged tree,
which does not deep-equal the written value. -/
theorem empty_path_roundtrip_fails :
    isEqual
      (getWithOptionalPath
        (setWithOptionalPath (.obj false [("a", JVal.num 1)]) []
          (.obj false [("b", JVal.num 2)])) [])
      (.obj false [("b", JVal.num 2)]) = false := rfl

/-- C6 amended: for container trees and non-empty paths the round-trip law
holds — resolving `p` in `assign(v, p, x)` deep-equals `x`, with missing
intermediate containers auto-created during the write (the whole path
exists afterwards); an empty path merges the value's properties into the
tree, which then resolves to the merged tree itself; resolving is total:
the empty path resolves to the tree, a missing key yields `undefined`,
and resolving through `undefined` stays `undefined` instead of
throwing. -/
theorem path_roundtrip (v x : JVal) (p : JPath) (hv : v.isContainer = true)
    (hp : p ≠ []) :
    isEqual (getWithOptionalPath (setWithOptionalPath v p x) p) x = true ∧
    hasPath (setWithOptionalPath v p x) p = true ∧
    getWithOptionalPath v [] = v ∧
    (∀ w : JVal, ∀ k : String, hasKey w k = false → getKey w k = .undefined) ∧
    (∀ q : JPath, getPath .undefined q = .undefined) := by
  have hempty : p.isEmpty = false := by
    cases p with
    | nil => exact absurd rfl hp
    | cons a b => rfl
  refine ⟨?_, ?_, rfl, ?_, getPath_undefined⟩
  · simp only [getWithOptionalPath, setWithOptionalPath, hempty,
      Bool.false_eq_true, if_false]
    rw [getPath_setPath_self p v x hv hp]
    exact isEqual_refl x
  · simp only [setWithOptionalPath, hempty, Bool.false_eq_true, if_false]
    exact hasPath_setPath_self p v x hv hp
  · intro w k h
    cases w with
    | obj a fs =>
        cases hl : lookupField fs k with
        | none => simp [getKey, hl]
        | some wv => simp [hasKey, hl] at h
    | undefined => rfl
    | jsNull => rfl
    | bool b => rfl
    | num n => rfl
    | str s => rfl

theorem path_roundtrip_witness :
    JVal.isContainer (.obj false [("a", JVal.num 1)]) = true ∧
    (["b"] : JPath) ≠ [] ∧
    isEqual (getWithOptionalPath (setWithOptionalPath
      (.obj false [("a", JVal.num 1)]) ["b"] (JVal.num 5)) ["b"])
      (JVal.num 5) = true :=
  ⟨rfl, by decide,
    (path_roundtrip (.obj false [("a", JVal.num 1)]) (JVal.num 5) ["b"]
      rfl (by decide)).1⟩

theorem errors_equal_validator_output_witness :
    ((spreadFields scenarioInitialState).map Prod.fst).Nodup ∧
    ((spreadFields scenarioChangePartial).map Prod.fst).Nodup ∧
    (["form"] : JPath) ≠ [] ∧
    truthy (getPath nestedFormState ["form"]) = true ∧
    (getKey (withFormSetState requiredNameValidator [] scenarioInitialState
        scenarioChangePartial true) "errors" =
      (requiredNameValidator (getKey (withFormSetState requiredNameValidator
        [] scenarioInitialState scenarioChangePartial true)
        "values")).getD .undefined ∧
    getKey (withFormSetState requiredNameValidator [] scenarioInitialState
        scenarioChangePartial true) "values" =
      getKey (jsSpread2 scenarioInitialState scenarioChangePartial)
        "values" ∧
    (∀ k, k ≠ "errors" →
      getKey (withFormSetState requiredNameValidator [] scenarioInitialState
          scenarioChangePartial true) k =
        getKey (jsSpread2 scenarioInitialState scenarioChangePartial) k) ∧
    getKey (getPath (formComputeInvoked requiredNameValidator ["form"]
        nestedFormState) ["form"]) "errors" =
      (requiredNameValidator (getKey (getPath nestedFormState ["form"])
        "values")).getD .undefined ∧
    getPath scenarioInitialState ["errors", "name", "_errors", "0"] =
      .str "Name is required" ∧
    getKey scenarioInitialState "touched" = .undefined ∧
    getKey scenarioInitialState "dirty" = .undefined) :=
  ⟨by decide, by decide, by decide, rfl,
    errors_equal_validator_output requiredNameValidator scenarioInitialState
      scenarioChangePartial (by decide) (by decide) ["form"] (by decide)
      nestedFormState rfl⟩

end Zustorm
